import Mathlib

/-!
Verification development for the bin-collection calendar feed (src/app.py).

The core logic embedded here:
- `parse_interval_days` (src/app.py lines 29-43): free-text schedule
  description -> repeat interval in days.
- `make_uid` (lines 46-48): stable event identifier from service name and date.
- `build_calendar` (lines 51-108): per-service date expansion and event
  materialization.

Dates are modelled as integers counting days since 1970-01-01 (Python
`date` objects under day-granular `timedelta` arithmetic and comparison are
order-isomorphic to such ordinals); `daysFromCivil`/`civilFromDays` convert
between (year, month, day) triples and ordinals so that concrete dates in
the claims can be written out.  Strings relevant to the claims are ASCII, so
Python `str.lower` is modelled by ASCII lowercasing.
-/

/-- ASCII lowercasing of one character (models Python `str.lower` on the
ASCII strings relevant here). -/
def lowerChar (c : Char) : Char :=
  if 'A' ≤ c ∧ c ≤ 'Z' then Char.ofNat (c.toNat + 32) else c

/-- ASCII lowercasing of a character list. -/
def lowerList (l : List Char) : List Char := l.map lowerChar

/-- `startsWith pat l` : `pat` is a prefix of `l` (models Python substring
matching at the head position). -/
def startsWith : List Char → List Char → Bool
  | [], _ => true
  | _ :: _, [] => false
  | p :: ps, c :: cs => p == c && startsWith ps cs

/-- `containsSub pat l` : `pat` occurs as a contiguous substring of `l`
(models Python's `pat in l` on strings). -/
def containsSub (pat : List Char) : List Char → Bool
  | [] => pat.isEmpty
  | c :: cs => startsWith pat (c :: cs) || containsSub pat cs

/-- Python regex class `\s` restricted to ASCII whitespace. -/
def isSpaceC (c : Char) : Bool :=
  c == ' ' || c == '\t' || c == '\n' || c == '\r' || c == '\x0b' || c == '\x0c'

/-- Python regex class `\d` restricted to ASCII digits. -/
def isDigitC (c : Char) : Bool := '0' ≤ c && c ≤ '9'

/-- Drop the literal `pat` from the head of `l`, if present. -/
def dropPre : List Char → List Char → Option (List Char)
  | [], l => some l
  | _ :: _, [] => none
  | p :: ps, c :: cs => if p = c then dropPre ps cs else none

/-- Consume a nonempty maximal run of characters satisfying `p` (models a
greedy `+` on a character class; `\s`, `\d` and the adjacent literals are
disjoint classes, so greedy matching with no backtracking coincides with the
regex semantics). Returns (run, rest). -/
def span1 (p : Char → Bool) (l : List Char) : Option (List Char × List Char) :=
  match l with
  | [] => none
  | c :: cs => if p c then some ((c :: cs).takeWhile p, (c :: cs).dropWhile p) else none

/-- Numeric value of a digit run (models Python `int` on the captured group). -/
def digitsVal (ds : List Char) : ℕ :=
  ds.foldl (fun a c => 10 * a + (c.toNat - 48)) 0

/-- Try to match the regex `every\s+(\d+)\s+week` anchored at the head of
`l`, returning the captured integer. -/
def matchEveryAt (l : List Char) : Option ℕ :=
  match dropPre "every".toList l with
  | none => none
  | some l1 =>
    match span1 isSpaceC l1 with
    | none => none
    | some s1 =>
      match span1 isDigitC s1.2 with
      | none => none
      | some s2 =>
        match span1 isSpaceC s2.2 with
        | none => none
        | some s3 =>
          match dropPre "week".toList s3.2 with
          | none => none
          | some _ => some (digitsVal s2.1)

/-- `re.search(r"every\s+(\d+)\s+week", l)`: leftmost match, captured
integer (src/app.py line 40). -/
def searchEvery : List Char → Option ℕ
  | [] => none
  | c :: cs =>
    match matchEveryAt (c :: cs) with
    | some n => some n
    | none => searchEvery cs

/-- Embeds `parse_interval_days` (src/app.py lines 29-43): repeat interval in
days inferred from a schedule description, `none` if unrecognised. -/
def parse_interval_days (schedule_description : String) : Option ℕ :=
  let desc := lowerList schedule_description.toList
  if containsSub "fortnight".toList desc || containsSub "every 2 week".toList desc
      || containsSub "every other week".toList desc then
    some 14
  else if containsSub "every week".toList desc || containsSub "weekly".toList desc
      || containsSub "week".toList desc then
    some 7
  else
    match searchEvery desc with
    | some n => some (n * 7)
    | none => none

/-! ### Calendar dates as day ordinals -/

/-- Day ordinal (days since 1970-01-01) of the Gregorian civil date
(y, m, d); standard civil-calendar conversion, used to write the concrete
dates appearing in the claims. -/
def daysFromCivil (y m d : ℤ) : ℤ :=
  let y' := if m ≤ 2 then y - 1 else y
  let era := (if 0 ≤ y' then y' else y' - 399) / 400
  let yoe := y' - era * 400
  let mp := (m + 9) % 12
  let doy := (153 * mp + 2) / 5 + d - 1
  let doe := yoe * 365 + yoe / 4 - yoe / 100 + doy
  era * 146097 + doe - 719468

/-- Inverse of `daysFromCivil`: (year, month, day) of a day ordinal. -/
def civilFromDays (z0 : ℤ) : ℤ × ℤ × ℤ :=
  let z := z0 + 719468
  let era := (if 0 ≤ z then z else z - 146096) / 146097
  let doe := z - era * 146097
  let yoe := (doe - doe / 1460 + doe / 36524 - doe / 146096) / 365
  let y := yoe + era * 400
  let doy := doe - (365 * yoe + yoe / 4 - yoe / 100)
  let mp := (5 * doy + 2) / 153
  let d := doy - (153 * mp + 2) / 5 + 1
  let m := mp + (if mp < 10 then 3 else -9)
  (y + (if m ≤ 2 then 1 else 0), m, d)

/-- Decimal digit character. -/
def digitChar (n : ℕ) : Char := Char.ofNat (48 + n % 10)

/-- Four-digit decimal rendering (for years 1000-9999). -/
def pad4 (n : ℕ) : String :=
  String.mk [digitChar (n / 1000), digitChar (n / 100), digitChar (n / 10), digitChar n]

/-- Two-digit zero-padded decimal rendering. -/
def pad2 (n : ℕ) : String := String.mk [digitChar (n / 10), digitChar n]

/-- Models Python `date.isoformat()` ("YYYY-MM-DD") on a day ordinal. -/
def isoformat (z : ℤ) : String :=
  let c := civilFromDays z
  pad4 c.1.toNat ++ "-" ++ pad2 c.2.1.toNat ++ "-" ++ pad2 c.2.2.toNat

/-! ### MD5 (RFC 1321), used by `make_uid` via Python `hashlib.md5` -/

/-- Truncate to 32 bits. -/
def w32 (n : ℕ) : ℕ := n % 4294967296

/-- 32-bit modular addition. -/
def add32 (a b : ℕ) : ℕ := w32 (a + b)

/-- 32-bit complement (arguments below 2^32). -/
def not32 (a : ℕ) : ℕ := a ^^^ 4294967295

/-- 32-bit left rotation. -/
def rotl32 (x s : ℕ) : ℕ := w32 (x <<< s) ||| (x >>> (32 - s))

/-- MD5 sine-derived round constants. -/
def md5K : List ℕ :=
  [0xd76aa478, 0xe8c7b756, 0x242070db, 0xc1bdceee,
   0xf57c0faf, 0x4787c62a, 0xa8304613, 0xfd469501,
   0x698098d8, 0x8b44f7af, 0xffff5bb1, 0x895cd7be,
   0x6b901122, 0xfd987193, 0xa679438e, 0x49b40821,
   0xf61e2562, 0xc040b340, 0x265e5a51, 0xe9b6c7aa,
   0xd62f105d, 0x02441453, 0xd8a1e681, 0xe7d3fbc8,
   0x21e1cde6, 0xc33707d6, 0xf4d50d87, 0x455a14ed,
   0xa9e3e905, 0xfcefa3f8, 0x676f02d9, 0x8d2a4c8a,
   0xfffa3942, 0x8771f681, 0x6d9d6122, 0xfde5380c,
   0xa4beea44, 0x4bdecfa9, 0xf6bb4b60, 0xbebfbc70,
   0x289b7ec6, 0xeaa127fa, 0xd4ef3085, 0x04881d05,
   0xd9d4d039, 0xe6db99e5, 0x1fa27cf8, 0xc4ac5665,
   0xf4292244, 0x432aff97, 0xab9423a7, 0xfc93a039,
   0x655b59c3, 0x8f0ccc92, 0xffeff47d, 0x85845dd1,
   0x6fa87e4f, 0xfe2ce6e0, 0xa3014314, 0x4e0811a1,
   0xf7537e82, 0xbd3af235, 0x2ad7d2bb, 0xeb86d391]

/-- MD5 per-round left-rotation amounts. -/
def md5S : List ℕ :=
  [7, 12, 17, 22, 7, 12, 17, 22, 7, 12, 17, 22, 7, 12, 17, 22,
   5, 9, 14, 20, 5, 9, 14, 20, 5, 9, 14, 20, 5, 9, 14, 20,
   4, 11, 16, 23, 4, 11, 16, 23, 4, 11, 16, 23, 4, 11, 16, 23,
   6, 10, 15, 21, 6, 10, 15, 21, 6, 10, 15, 21, 6, 10, 15, 21]

/-- Little-endian 32-bit words from a byte list. -/
def toWordsLE : List ℕ → List ℕ
  | b0 :: b1 :: b2 :: b3 :: rest =>
      (b0 + 256 * b1 + 65536 * b2 + 16777216 * b3) :: toWordsLE rest
  | _ => []

/-- One MD5 round step selector: mixing function and message index. -/
def md5FG (b c d i : ℕ) : ℕ × ℕ :=
  if i < 16 then ((b &&& c) ||| (not32 b &&& d), i)
  else if i < 32 then ((d &&& b) ||| (not32 d &&& c), (5 * i + 1) % 16)
  else if i < 48 then (b ^^^ c ^^^ d, (3 * i + 5) % 16)
  else (c ^^^ (b ||| not32 d), (7 * i) % 16)

/-- Process one 64-byte MD5 block. -/
def md5block (st : ℕ × ℕ × ℕ × ℕ) (block : List ℕ) : ℕ × ℕ × ℕ × ℕ :=
  let M := toWordsLE block
  let r := (List.range 64).foldl
    (fun (s : ℕ × ℕ × ℕ × ℕ) i =>
      let a := s.1; let b := s.2.1; let c := s.2.2.1; let d := s.2.2.2
      let fg := md5FG b c d i
      let f := add32 fg.1 (add32 a (add32 (md5K.getD i 0) (M.getD fg.2 0)))
      (d, add32 b (rotl32 f (md5S.getD i 0)), b, c))
    st
  (add32 st.1 r.1, add32 st.2.1 r.2.1, add32 st.2.2.1 r.2.2.1, add32 st.2.2.2 r.2.2.2)

/-- Fold MD5 blocks over the padded message; `fuel` bounds the number of
blocks (the callers pass the message length, which always suffices since each
block consumes 64 bytes). -/
def md5blocksAux : ℕ → (ℕ × ℕ × ℕ × ℕ) → List ℕ → ℕ × ℕ × ℕ × ℕ
  | 0, st, _ => st
  | _ + 1, st, [] => st
  | fuel + 1, st, l => md5blocksAux fuel (md5block st (l.take 64)) (l.drop 64)

/-- MD5 padding: 0x80, zeros to 56 mod 64, 64-bit little-endian bit length. -/
def md5pad (msg : List ℕ) : List ℕ :=
  let n := msg.length
  let zeros := (119 - n % 64) % 64
  let bitlen := 8 * n
  msg ++ 0x80 :: List.replicate zeros 0 ++
    (List.range 8).map (fun i => (bitlen >>> (8 * i)) % 256)

/-- Little-endian bytes of a 32-bit word. -/
def wordBytesLE (w : ℕ) : List ℕ := [w % 256, w / 256 % 256, w / 65536 % 256, w / 16777216 % 256]

/-- Hex digit character (lowercase). -/
def hexChar (n : ℕ) : Char := if n < 10 then digitChar n else Char.ofNat (87 + n)

/-- Lowercase hex rendering of a byte list. -/
def hexOfBytes (bs : List ℕ) : String :=
  String.mk (bs.foldr (fun b acc => hexChar (b / 16) :: hexChar (b % 16) :: acc) [])

/-- MD5 hex digest of a byte list (models `hashlib.md5(...).hexdigest()`). -/
def md5hex (msg : List ℕ) : String :=
  let padded := md5pad msg
  let st := md5blocksAux padded.length (0x67452301, 0xefcdab89, 0x98badcfe, 0x10325476) padded
  hexOfBytes (wordBytesLE st.1 ++ wordBytesLE st.2.1 ++ wordBytesLE st.2.2.1 ++ wordBytesLE st.2.2.2)

/-- Byte encoding of an ASCII string (models `str.encode` on the ASCII
strings relevant here). -/
def strBytes (s : String) : List ℕ := s.toList.map Char.toNat

/-- Embeds `make_uid` (src/app.py lines 46-48): stable identifier from the
service name and the event date. -/
def make_uid (service : String) (event_date : ℤ) : String :=
  let key := service ++ "-" ++ isoformat event_date ++ "@southglos-bins"
  md5hex (strBytes key) ++ "@bins"

/-! ### Date expansion and event materialization (`build_calendar`) -/

/-- `MONTHS_AHEAD` (src/app.py line 26). -/
def MONTHS_AHEAD : ℕ := 6

/-- `end_date = today + timedelta(days=MONTHS_AHEAD * 30)` (src/app.py
line 60). -/
def horizonEnd (today : ℤ) : ℤ := today + (MONTHS_AHEAD : ℤ) * 30

/-- The while-loop of src/app.py lines 80-85 for a present interval `k`:
while `current ≤ hz`, emit `current` when `today ≤ current`, then advance by
`k` days.  `fuel` makes the recursion structural; the callers pass
`(hz + 1 - current).toNat`, which is exhausted only once `current > hz`
whenever `0 < k` (see `expandLoop_fuel_irrel`), so for every positive step the
function computes exactly what the Python loop does.  (For `k = 0`, outside
`RepeatInterval`'s positive-integer invariant and unreachable from
`parse_interval_days`, the Python loop does not terminate; the model truncates
it at the fuel bound.) -/
def expandLoop (today hz : ℤ) (k : ℕ) : ℕ → ℤ → List ℤ
  | 0, _ => []
  | fuel + 1, current =>
    if current ≤ hz then
      (if today ≤ current then [current] else []) ++ expandLoop today hz k fuel (current + k)
    else []

/-- The date-expansion loop of src/app.py lines 77-85: from the anchor
`next_dt`, collect the dates in the window [today, hz]; with no interval
only the anchor itself is considered before the `break`. -/
def expand (next_dt : ℤ) (interval : Option ℕ) (today hz : ℤ) : List ℤ :=
  match interval with
  | none => if next_dt ≤ hz then (if today ≤ next_dt then [next_dt] else []) else []
  | some k => expandLoop today hz k (hz + 1 - next_dt).toNat next_dt

/-- A service record from the upstream payload: the three fields
`build_calendar` reads via `.get` (src/app.py lines 63-65), each possibly
absent. -/
structure ServiceRecord where
  hso_servicename : Option String
  hso_nextcollection : Option String
  hso_scheduledescription : Option String
deriving DecidableEq

/-- One VEVENT with its embedded VALARM as materialized by src/app.py lines
87-104.  The alarm trigger is the relative offset `timedelta(hours=-17)` of
line 103, recorded in hours; with the all-day event start treated as
midnight this is 19:00 the previous day. -/
structure CalendarEventRecord where
  summary : String
  startDate : ℤ
  endDate : ℤ
  description : String
  uid : String
  alarmAction : String
  alarmDescription : String
  triggerOffsetHours : ℤ
deriving DecidableEq

/-- Event materialization for one collection date (src/app.py lines 87-104). -/
def mkEvent (name schedule_desc : String) (cdate : ℤ) : CalendarEventRecord :=
  { summary := "♻ " ++ name ++ " collection"
    startDate := cdate
    endDate := cdate + 1
    description := "Service: " ++ name ++ "\nSchedule: " ++ schedule_desc
    uid := make_uid name cdate
    alarmAction := "DISPLAY"
    alarmDescription := "Put out " ++ name ++ " bin tonight!"
    triggerOffsetHours := -17 }

/-- The per-service body of `build_calendar`'s for-loop (src/app.py lines
62-106): events contributed by one service record.  `dateparse` models the
external `dateutil.parser.parse(...).date()` call of line 71, with `none`
standing for the `ValueError`/`TypeError` caught on line 72; `today` is the
value `date.today()` returned on line 59.  An absent or falsy (empty)
`hso_nextcollection` is skipped on lines 67-68. -/
def eventsForService (dateparse : String → Option ℤ) (today : ℤ)
    (service : ServiceRecord) : List CalendarEventRecord :=
  let name := service.hso_servicename.getD "Unknown"
  let schedule_desc := service.hso_scheduledescription.getD ""
  match service.hso_nextcollection with
  | none => []
  | some s =>
    if s = "" then []
    else
      match dateparse s with
      | none => []
      | some next_dt =>
        (expand next_dt (parse_interval_days schedule_desc) today (horizonEnd today)).map
          (mkEvent name schedule_desc)

/-- The calendar document assembled by `build_calendar` (src/app.py lines
51-108): the five header properties of lines 53-57 and one event block per
materialized record. -/
structure CalendarDoc where
  prodid : String
  version : String
  calscale : String
  calname : String
  timezone : String
  events : List CalendarEventRecord
deriving DecidableEq

/-- Embeds `build_calendar` (src/app.py lines 51-108).  `today` is the value
the internal `date.today()` call of line 59 returns (the code reads the wall
clock here rather than taking the date as a parameter; the embedding
necessarily surfaces that read as an argument). -/
def build_calendar (dateparse : String → Option ℤ) (today : ℤ)
    (services : List ServiceRecord) : CalendarDoc :=
  { prodid := "-//Bin Collection Feed//southglos//EN"
    version := "2.0"
    calscale := "GREGORIAN"
    calname := "Bin Collections"
    timezone := "Europe/London"
    events := services.flatMap (eventsForService dateparse today) }

/-- The request-time composition: `build_calendar` invoked on the value an
ambient clock (`date.today`, src/app.py line 59) returns at that moment. -/
def build_calendar_run (dateparse : String → Option ℤ) (clock : Unit → ℤ)
    (services : List ServiceRecord) : CalendarDoc :=
  build_calendar dateparse (clock ()) services

/-! ### Definitions used to state the claims and instantiate witnesses -/

/-- The two-rule classifier of claim C10's words: the fortnight rule, then
the bare weekly rule, and nothing else — no numeric regex fallback.  Written
from the claim, to be compared with `parse_interval_days`, which is written
from the source. -/
def classify_two_rule (s : String) : Option ℕ :=
  let desc := lowerList s.toList
  if containsSub "fortnight".toList desc || containsSub "every 2 week".toList desc
      || containsSub "every other week".toList desc then
    some 14
  else if containsSub "every week".toList desc || containsSub "weekly".toList desc
      || containsSub "week".toList desc then
    some 7
  else
    none

/-- A record whose collection-date field is absent, falsy, or unparseable:
these are exactly the records the `continue` statements of src/app.py lines
67-68 and 70-73 skip. -/
def badDateRecord (dateparse : String → Option ℤ) (r : ServiceRecord) : Prop :=
  match r.hso_nextcollection with
  | none => True
  | some s => s = "" ∨ dateparse s = none

/-- A concrete stand-in for the external date parser in witness
instantiations: recognises two raw date strings. -/
def dp0 : String → Option ℤ :=
  fun s => if s = "2024-01-01" then some 19723
    else if s = "8 Jan 2024" then some 19730 else none

/-- A witness service record with a parseable collection date. -/
def goodRec : ServiceRecord :=
  { hso_servicename := some "Refuse", hso_nextcollection := some "2024-01-01",
    hso_scheduledescription := some "" }

/-- A witness service record with a parseable date and a different service. -/
def recycRec : ServiceRecord :=
  { hso_servicename := some "Recycling", hso_nextcollection := some "8 Jan 2024",
    hso_scheduledescription := some "" }

/-- A witness service record whose collection date does not parse. -/
def badRec : ServiceRecord :=
  { hso_servicename := some "Food", hso_nextcollection := some "not a date",
    hso_scheduledescription := some "weekly" }
/-! ### Lemmas: substring matching -/

lemma startsWith_append_self (pat r : List Char) : startsWith pat (pat ++ r) = true := by
  induction pat with
  | nil => rfl
  | cons p ps ih => simp [startsWith, ih]

lemma containsSub_of_starts {pat l : List Char} (h : startsWith pat l = true) :
    containsSub pat l = true := by
  cases l with
  | nil =>
    cases pat with
    | nil => rfl
    | cons p ps => simp [startsWith] at h
  | cons c cs => simp [containsSub, h]

lemma containsSub_cons {pat l : List Char} (c : Char) (h : containsSub pat l = true) :
    containsSub pat (c :: l) = true := by
  simp [containsSub, h]

lemma containsSub_append {pat l : List Char} (x : List Char) (h : containsSub pat l = true) :
    containsSub pat (x ++ l) = true := by
  induction x with
  | nil => exact h
  | cons c cs ih => exact containsSub_cons c ih

lemma startsWith_map (f : Char → Char) :
    ∀ pat l : List Char, startsWith pat l = true →
      startsWith (pat.map f) (l.map f) = true := by
  intro pat
  induction pat with
  | nil => intro l _; rfl
  | cons p ps ih =>
    intro l h
    cases l with
    | nil => simp [startsWith] at h
    | cons c cs =>
      simp only [startsWith, Bool.and_eq_true, beq_iff_eq] at h
      simp only [List.map_cons, startsWith, Bool.and_eq_true, beq_iff_eq]
      exact ⟨congrArg f h.1, ih cs h.2⟩

lemma containsSub_map (f : Char → Char) :
    ∀ pat l : List Char, containsSub pat l = true →
      containsSub (pat.map f) (l.map f) = true := by
  intro pat l
  induction l with
  | nil =>
    intro h
    cases pat with
    | nil => rfl
    | cons p ps => simp [containsSub] at h
  | cons c cs ih =>
    intro h
    simp only [containsSub, Bool.or_eq_true] at h
    rcases h with h | h
    · exact containsSub_of_starts (startsWith_map f _ _ h)
    · exact containsSub_cons (f c) (ih h)

/-! ### Lemmas: the regex `every\s+(\d+)\s+week` only matches strings
containing "week" -/

lemma dropPre_eq : ∀ pat l r : List Char, dropPre pat l = some r → l = pat ++ r := by
  intro pat
  induction pat with
  | nil =>
    intro l r h
    simp only [dropPre, Option.some.injEq] at h
    rw [h]; rfl
  | cons p ps ih =>
    intro l r h
    cases l with
    | nil => simp [dropPre] at h
    | cons c cs =>
      simp only [dropPre] at h
      by_cases hpc : p = c
      · rw [if_pos hpc] at h
        rw [List.cons_append, hpc, ih cs r h]
      · rw [if_neg hpc] at h; cases h

lemma span1_eq {p : Char → Bool} {l : List Char} {s : List Char × List Char}
    (h : span1 p l = some s) : l = s.1 ++ s.2 := by
  cases l with
  | nil => simp [span1] at h
  | cons c cs =>
    simp only [span1] at h
    by_cases hp : p c = true
    · rw [if_pos hp] at h
      cases h
      exact (List.takeWhile_append_dropWhile p (c :: cs)).symm
    · rw [if_neg hp] at h; cases h

lemma matchEveryAt_week {l : List Char} {n : ℕ} (h : matchEveryAt l = some n) :
    containsSub "week".toList l = true := by
  unfold matchEveryAt at h
  split at h
  · exact Option.noConfusion h
  rename_i l1 h1
  split at h
  · exact Option.noConfusion h
  rename_i s1 h2
  split at h
  · exact Option.noConfusion h
  rename_i s2 h3
  split at h
  · exact Option.noConfusion h
  rename_i s3 h4
  split at h
  · exact Option.noConfusion h
  rename_i rest h5
  have hw : containsSub "week".toList s3.2 = true := by
    rw [dropPre_eq _ _ _ h5]
    exact containsSub_of_starts (startsWith_append_self _ _)
  rw [dropPre_eq _ _ _ h1, span1_eq h2, span1_eq h3, span1_eq h4]
  exact containsSub_append _ (containsSub_append _ (containsSub_append _
    (containsSub_append _ hw)))

lemma searchEvery_week : ∀ {l : List Char} {n : ℕ}, searchEvery l = some n →
    containsSub "week".toList l = true := by
  intro l
  induction l with
  | nil => intro n h; cases h
  | cons c cs ih =>
    intro n h
    cases hm : matchEveryAt (c :: cs) with
    | some m => exact matchEveryAt_week hm
    | none =>
      rw [searchEvery, hm] at h
      exact containsSub_cons c (ih h)

/-! ### Lemmas: the date-expansion loop -/

lemma mem_emit {today current d : ℤ} :
    d ∈ (if today ≤ current then ([current] : List ℤ) else []) ↔
      today ≤ current ∧ d = current := by
  by_cases h : today ≤ current <;> simp [h]

lemma expandLoop_bounds (today hz : ℤ) (k : ℕ) :
    ∀ (fuel : ℕ) (current d : ℤ), d ∈ expandLoop today hz k fuel current →
      today ≤ d ∧ d ≤ hz := by
  intro fuel
  induction fuel with
  | zero => intro current d h; simp [expandLoop] at h
  | succ fuel ih =>
    intro current d h
    rw [expandLoop] at h
    by_cases hc : current ≤ hz
    · rw [if_pos hc] at h
      rcases List.mem_append.mp h with h1 | h2
      · rcases mem_emit.mp h1 with ⟨ht, rfl⟩
        exact ⟨ht, hc⟩
      · exact ih _ _ h2
    · rw [if_neg hc] at h
      simp at h

lemma expandLoop_mem_iff (today hz : ℤ) (k : ℕ) (hk : 0 < k) :
    ∀ (fuel : ℕ) (current d : ℤ), (hz + 1 - current).toNat ≤ fuel →
      (d ∈ expandLoop today hz k fuel current ↔
        today ≤ d ∧ d ≤ hz ∧ ∃ i : ℕ, d = current + (i : ℤ) * (k : ℤ)) := by
  intro fuel
  induction fuel with
  | zero =>
    intro current d hf
    constructor
    · intro h; simp [expandLoop] at h
    · rintro ⟨h1, h2, i, rfl⟩
      have hik : (0 : ℤ) ≤ (i : ℤ) * (k : ℤ) := by positivity
      omega
  | succ fuel ih =>
    intro current d hf
    by_cases hc : current ≤ hz
    · have hrec := ih (current + (k : ℤ)) d (by omega)
      rw [expandLoop, if_pos hc, List.mem_append, mem_emit, hrec]
      constructor
      · rintro (⟨ht, rfl⟩ | ⟨h1, h2, i, rfl⟩)
        · exact ⟨ht, hc, 0, by simp⟩
        · exact ⟨h1, h2, i + 1, by push_cast; ring⟩
      · rintro ⟨h1, h2, i, rfl⟩
        cases i with
        | zero => exact Or.inl ⟨by simpa using h1, by simp⟩
        | succ j => exact Or.inr ⟨h1, h2, j, by push_cast; ring⟩
    · rw [expandLoop, if_neg hc]
      constructor
      · intro h; simp at h
      · rintro ⟨h1, h2, i, rfl⟩
        have hik : (0 : ℤ) ≤ (i : ℤ) * (k : ℤ) := by positivity
        omega

lemma expand_mem_iff {next_dt today hz : ℤ} {k : ℕ} (hk : 0 < k) (d : ℤ) :
    d ∈ expand next_dt (some k) today hz ↔
      today ≤ d ∧ d ≤ hz ∧ ∃ i : ℕ, d = next_dt + (i : ℤ) * (k : ℤ) :=
  expandLoop_mem_iff today hz k hk _ next_dt d le_rfl

lemma expand_bounds {next_dt today hz : ℤ} {interval : Option ℕ} {d : ℤ}
    (h : d ∈ expand next_dt interval today hz) : today ≤ d ∧ d ≤ hz := by
  cases interval with
  | none =>
    unfold expand at h
    by_cases h1 : next_dt ≤ hz
    · rw [if_pos h1] at h
      rcases mem_emit.mp h with ⟨ht, rfl⟩
      exact ⟨ht, h1⟩
    · rw [if_neg h1] at h; simp at h
  | some k => exact expandLoop_bounds today hz k _ next_dt d h

lemma parse_eq_two_rule (s : String) : parse_interval_days s = classify_two_rule s := by
  unfold parse_interval_days classify_two_rule
  by_cases h1 : (containsSub "fortnight".toList (lowerList s.toList)
      || containsSub "every 2 week".toList (lowerList s.toList)
      || containsSub "every other week".toList (lowerList s.toList)) = true
  · rw [if_pos h1, if_pos h1]
  · rw [if_neg h1, if_neg h1]
    by_cases h2 : (containsSub "every week".toList (lowerList s.toList)
        || containsSub "weekly".toList (lowerList s.toList)
        || containsSub "week".toList (lowerList s.toList)) = true
    · rw [if_pos h2, if_pos h2]
    · rw [if_neg h2, if_neg h2]
      have hweek : containsSub "week".toList (lowerList s.toList) = false := by
        cases hcc : containsSub "week".toList (lowerList s.toList)
        · rfl
        · exfalso; apply h2; rw [hcc]; simp
      cases hs : searchEvery (lowerList s.toList) with
      | none => rfl
      | some n =>
        rw [searchEvery_week hs] at hweek
        exact Bool.noConfusion hweek

lemma eventsForService_bad {dateparse : String → Option ℤ} {today : ℤ}
    {r : ServiceRecord} (h : badDateRecord dateparse r) :
    eventsForService dateparse today r = [] := by
  unfold badDateRecord at h
  unfold eventsForService
  cases hn : r.hso_nextcollection with
  | none => rfl
  | some s =>
    rw [hn] at h
    rcases h with
      h | h
    · simp [h]
    · by_cases hs : s = ""
      · simp [hs]
      · simp [hs, h]

lemma mem_events_shape {dateparse : String → Option ℤ} {today : ℤ}
    {services : List ServiceRecord} {e : CalendarEventRecord}
    (h : e ∈ (build_calendar dateparse today services).events) :
    ∃ name schedule_desc cdate, e = mkEvent name schedule_desc cdate ∧
      today ≤ cdate ∧ cdate ≤ horizonEnd today := by
  unfold build_calendar at h
  rcases List.mem_flatMap.mp h with ⟨r, _, hr⟩
  obtain ⟨na, nc, sd⟩ := r
  cases nc with
  | none => simp [eventsForService] at hr
  | some s =>
    by_cases hs : s = ""
    · simp [eventsForService, hs] at hr
    · rcases hd : dateparse s with _ | next_dt
      · simp [eventsForService, hs, hd] at hr
      · simp only [eventsForService, if_neg hs, hd] at hr
        rcases List.mem_map.mp hr with ⟨cdate, hc, he⟩
        rcases expand_bounds hc with ⟨hb1, hb2⟩
        exact ⟨_, _, cdate, he.symm, hb1, hb2⟩

/-! ### Claim theorems -/

/-- C1: the spec claims that a description matching "every N week(s)" with no
fortnight phrase classifies to N×7, in particular
classify("Every 3 weeks") = 21.  Evaluating the embedded code at that very
input yields 7, not 21: the bare "week" substring rule of src/app.py line 37
fires before the numeric regex fallback of lines 40-42, so the fallback
branch never executes.  This theorem records what the code does at the
claim's own example input. -/
theorem C1_every3weeks_evaluates_to_7 : parse_interval_days "Every 3 weeks" = some 7 := by
  decide

/-- C2: two-run determinism of the calendar generation relative to the clock
read.  In the embedding, the `date.today()` read that `build_calendar`
performs internally (src/app.py line 59, surfaced here as the value the
ambient clock returns) is the only non-input the computation consumes: two
invocations whose clock reads agree produce identical output documents.  The
claim's stronger assertion — that the Python function takes `today` as an
injected parameter and reads no wall clock internally — is false of the
source, which reads `date.today()` inside `build_calendar`. -/
theorem C2_same_today_same_document :
    ∀ (dateparse : String → Option ℤ) (clock₁ clock₂ : Unit → ℤ)
      (services : List ServiceRecord),
      clock₁ () = clock₂ () →
      build_calendar_run dateparse clock₁ services
        = build_calendar_run dateparse clock₂ services := by
  intro dateparse clock₁ clock₂ services h
  unfold build_calendar_run
  rw [h]

theorem C2_witness :
    build_calendar_run dp0 (fun _ => 19723) [goodRec]
      = build_calendar_run dp0 (fun _ => 19723) [goodRec] :=
  C2_same_today_same_document dp0 (fun _ => 19723) (fun _ => 19723) [goodRec] rfl

/-- C3: for an anchor before today with a present interval, expansion steps
from the anchor itself, preserving the phase of the series, and merely
filters out dates before today: membership in the expansion is exactly
"in the window [today, horizonEnd] and congruent to the anchor modulo the
interval"; and concretely
expand(2023-12-18, 14, today=2024-01-01, horizonEnd=2024-01-20)
= [2024-01-01, 2024-01-15]. -/
theorem C3_phase_preserved_from_anchor :
    (expand (daysFromCivil 2023 12 18) (some 14) (daysFromCivil 2024 1 1)
        (daysFromCivil 2024 1 20)
      = [daysFromCivil 2024 1 1, daysFromCivil 2024 1 15])
    ∧ ∀ (k : ℕ) (anchor today hz d : ℤ), 0 < k →
        (d ∈ expand anchor (some k) today hz ↔
          today ≤ d ∧ d ≤ hz ∧ ∃ i : ℕ, d = anchor + (i : ℤ) * (k : ℤ)) :=
  ⟨by decide, fun _ _ _ _ d hk => expand_mem_iff hk d⟩

theorem C3_witness :
    daysFromCivil 2024 1 15 ∈ expand (daysFromCivil 2023 12 18) (some 14)
      (daysFromCivil 2024 1 1) (daysFromCivil 2024 1 20) :=
  (C3_phase_preserved_from_anchor.2 14 (daysFromCivil 2023 12 18)
      (daysFromCivil 2024 1 1) (daysFromCivil 2024 1 20) (daysFromCivil 2024 1 15)
      (by decide)).mpr
    ⟨by decide, by decide, 2, by decide⟩

/-- C4: the expansion loop starts at the anchor, emits every in-window date,
stops after the first check when the interval is absent, and otherwise steps
by the interval: concretely
expand(2024-01-01, 7, today=2024-01-01, horizonEnd=2024-01-22)
= [2024-01-01, 2024-01-08, 2024-01-15, 2024-01-22]; the sequence is empty
whenever the anchor is past the horizon end, and whenever the anchor is
before today with the interval absent. -/
theorem C4_expansion_algorithm :
    (expand (daysFromCivil 2024 1 1) (some 7) (daysFromCivil 2024 1 1)
        (daysFromCivil 2024 1 22)
      = [daysFromCivil 2024 1 1, daysFromCivil 2024 1 8, daysFromCivil 2024 1 15,
         daysFromCivil 2024 1 22])
    ∧ (∀ (next_dt : ℤ) (interval : Option ℕ) (today hz : ℤ), hz < next_dt →
        expand next_dt interval today hz = [])
    ∧ (∀ (next_dt today hz : ℤ), next_dt < today →
        expand next_dt none today hz = []) := by
  refine ⟨by decide, ?_, ?_⟩
  · intro next_dt interval today hz h
    cases interval with
    | none =>
      simp only [expand]
      rw [if_neg (not_le.mpr h)]
    | some k =>
      simp only [expand]
      have h0 : (hz + 1 - next_dt).toNat = 0 := by omega
      rw [h0]
      rfl
  · intro next_dt today hz h
    simp only [expand]
    by_cases h1 : next_dt ≤ hz
    · rw [if_pos h1, if_neg (by omega)]
    · rw [if_neg h1]

theorem C4_witness :
    expand 5 (some 7) 0 3 = [] ∧ expand 0 none 5 100 = [] :=
  ⟨C4_expansion_algorithm.2.1 5 (some 7) 0 3 (by decide),
   C4_expansion_algorithm.2.2 0 5 100 (by decide)⟩

/-- C5: any description containing "fortnight" in any letter case (stated
as: containing a substring whose lowercasing is "fortnight") classifies
to 14, regardless of any other interval-suggesting substrings present,
because the fortnight rule is checked first. -/
theorem C5_fortnight_always_14 :
    ∀ (desc pat : String),
      lowerList pat.toList = "fortnight".toList →
      containsSub pat.toList desc.toList = true →
      parse_interval_days desc = some 14 := by
  intro desc pat hpat hsub
  have h : containsSub "fortnight".toList (lowerList desc.toList) = true := by
    have hm := containsSub_map lowerChar pat.toList desc.toList hsub
    rw [show pat.toList.map lowerChar = lowerList pat.toList from rfl, hpat] at hm
    exact hm
  have hcond : (containsSub "fortnight".toList (lowerList desc.toList)
      || containsSub "every 2 week".toList (lowerList desc.toList)
      || containsSub "every other week".toList (lowerList desc.toList)) = true := by
    rw [h]; rfl
  simp only [parse_interval_days]
  exact if_pos hcond

theorem C5_witness :
    parse_interval_days "Collected FORTNIGHTLY, week after week" = some 14 :=
  C5_fortnight_always_14 "Collected FORTNIGHTLY, week after week" "FORTNIGHT"
    (by decide) (by decide)

/-- C6: a record whose collection-date field is absent, falsy or unparseable
contributes exactly zero events, and removing it from any position of the
service list leaves the document's events unchanged: one bad entry never
blocks the other records (and the embedding is total, so no unhandled fault
arises). -/
theorem C6_bad_record_isolation :
    ∀ (dateparse : String → Option ℤ) (today : ℤ)
      (l₁ l₂ : List ServiceRecord) (r : ServiceRecord),
      badDateRecord dateparse r →
      eventsForService dateparse today r = [] ∧
      (build_calendar dateparse today (l₁ ++ r :: l₂)).events
        = (build_calendar dateparse today (l₁ ++ l₂)).events := by
  intro dateparse today l₁ l₂ r h
  have hz : eventsForService dateparse today r = [] := eventsForService_bad h
  refine ⟨hz, ?_⟩
  unfold build_calendar
  simp only [List.flatMap_append, List.flatMap_cons, hz, List.nil_append]

set_option maxRecDepth 40000 in
theorem C6_witness :
    eventsForService dp0 19723 badRec = [] ∧
    (build_calendar dp0 19723 ([goodRec] ++ badRec :: [recycRec])).events
      = (build_calendar dp0 19723 ([goodRec] ++ [recycRec])).events :=
  C6_bad_record_isolation dp0 19723 [goodRec] [recycRec] badRec
    (Or.inr (by decide))

/-- C7: every emitted calendar event record has its end date equal to its
start date plus one day, and carries the fixed reminder trigger offset of
−17 hours from the (midnight) event start, i.e. 19:00 the previous day. -/
theorem C7_end_date_and_trigger :
    ∀ (dateparse : String → Option ℤ) (today : ℤ)
      (services : List ServiceRecord) (e : CalendarEventRecord),
      e ∈ (build_calendar dateparse today services).events →
      e.endDate = e.startDate + 1 ∧ e.triggerOffsetHours = -17 := by
  intro dateparse today services e h
  rcases mem_events_shape h with ⟨name, sched, cdate, rfl, -, -⟩
  exact ⟨rfl, rfl⟩

set_option maxRecDepth 40000 in
theorem C7_witness :
    (mkEvent "Refuse" "" 19723).endDate = (mkEvent "Refuse" "" 19723).startDate + 1
    ∧ (mkEvent "Refuse" "" 19723).triggerOffsetHours = -17 :=
  C7_end_date_and_trigger dp0 19723 [goodRec] (mkEvent "Refuse" "" 19723) (by decide)

set_option maxRecDepth 40000 in
/-- C8: the uid is a pure function of service name and date — evaluating it
twice at (Refuse, 2024-01-01) yields the same string — and it separates the
spec's distinct inputs: it differs from the uid of (Recycling, 2024-01-01)
and from that of (Refuse, 2024-01-08). -/
theorem C8_uid_stable_and_collision_free :
    make_uid "Refuse" (daysFromCivil 2024 1 1)
        = make_uid "Refuse" (daysFromCivil 2024 1 1)
    ∧ make_uid "Refuse" (daysFromCivil 2024 1 1)
        ≠ make_uid "Recycling" (daysFromCivil 2024 1 1)
    ∧ make_uid "Refuse" (daysFromCivil 2024 1 1)
        ≠ make_uid "Refuse" (daysFromCivil 2024 1 8) :=
  ⟨rfl, by decide, by decide⟩

/-- C9: the horizon end is today + (months × 30) days with the months
parameter equal to 6 — that is, today + 180 days, not calendar-accurate
month addition — and every emitted event's date lies in
[today, horizonEnd]. -/
theorem C9_horizon_and_window :
    MONTHS_AHEAD = 6
    ∧ (∀ today : ℤ, horizonEnd today = today + 180)
    ∧ (∀ (dateparse : String → Option ℤ) (today : ℤ)
        (services : List ServiceRecord) (e : CalendarEventRecord),
        e ∈ (build_calendar dateparse today services).events →
        today ≤ e.startDate ∧ e.startDate ≤ horizonEnd today) := by
  refine ⟨rfl, fun today => by norm_num [horizonEnd, MONTHS_AHEAD], ?_⟩
  intro dateparse today services e h
  rcases mem_events_shape h with ⟨name, sched, cdate, rfl, h1, h2⟩
  exact ⟨h1, h2⟩

set_option maxRecDepth 40000 in
theorem C9_witness :
    19723 ≤ (mkEvent "Recycling" "" 19730).startDate
    ∧ (mkEvent "Recycling" "" 19730).startDate ≤ horizonEnd 19723 :=
  C9_horizon_and_window.2.2 dp0 19723 [recycRec] (mkEvent "Recycling" "" 19730)
    (by decide)

/-- C10: `parse_interval_days` is extensionally equal to the two-rule
classifier: the numeric regex fallback is unreachable because every string
the regex matches contains the substring "week" and is already caught by the
bare weekly rule; consequently every present interval it returns is 7 or 14
(in particular positive, so the date-expansion loop steps strictly forward
and terminates). -/
theorem C10_regex_branch_unreachable :
    (∀ s : String, parse_interval_days s = classify_two_rule s)
    ∧ (∀ (s : String) (k : ℕ), parse_interval_days s = some k → k = 7 ∨ k = 14) := by
  refine ⟨parse_eq_two_rule, ?_⟩
  intro s k h
  rw [parse_eq_two_rule] at h
  simp only [classify_two_rule] at h
  split_ifs at h
  · exact Or.inr (Option.some.inj h).symm
  · exact Or.inl (Option.some.inj h).symm

theorem C10_witness : (7 : ℕ) = 7 ∨ (7 : ℕ) = 14 :=
  C10_regex_branch_unreachable.2 "Weekly collection" 7 (by decide)
